import Mathlib

/-!
Shallow embedding of the IEXTools streaming decoder (src/IEXTools/IEXparser.py
and src/IEXTools/messages.py).  Byte streams are `List Nat` (one `Nat` per
byte), Python exceptions become constructors of `Err`, and the `Parser`
object's mutable attributes become the explicit record `PState` threaded
through every operation.  Loops that Python runs on a file handle are
embedded as fuel-indexed structural recursions; the fuel is fixed at
`stream length + 1` and lemmas below show the defining equations of the
original loops hold for the wrappers, so the fuel is unobservable.
-/

namespace IEXT

/-- Python exceptions raised (or raisable) by the code under analysis.
`endOfStream` is `StopIteration`, `protocolError` is `ProtocolException`
(carrying the offending type tag where the code interpolates it),
`structError` is `struct.error`, and the rest are the builtin Python
exceptions of the same names. -/
inductive Err where
  | endOfStream
  | protocolError (tag : Nat)
  | structError
  | valueError
  | unboundLocalError
  | indexError
  | attributeError
  | keyError
  | typeError
deriving DecidableEq

/-- The thirteen message dataclasses of messages.py. -/
inductive MsgKind where
  | SystemEvent
  | SecurityDirective
  | TradingStatus
  | OperationalHalt
  | ShortSalePriceSale
  | SecurityEvent
  | BidPriceLevelUpdate
  | AskPriceLevelUpdate
  | QuoteUpdate
  | TradeReport
  | OfficialPrice
  | TradeBreak
  | AuctionInformation
deriving DecidableEq

/-- Python attribute values occurring on message objects: raw ints from
struct.unpack, raw byte strings, decoded text, and derived rational
values (prices and timestamps, which Python stores as floats computed by
exact division here modelled in `ℚ`). -/
inductive Value where
  | int (i : Int)
  | bytes (bs : List Nat)
  | str (s : String)
  | rat (q : ℚ)
deriving DecidableEq

/-- The three protocol versions keyed in `MessageDecoder.message_types`. -/
inductive Ver where
  | v1_0
  | v1_5
  | v1_6
deriving DecidableEq

instance {ε α : Type} [DecidableEq ε] [DecidableEq α] : DecidableEq (Except ε α) := fun x y =>
  match x, y with
  | .error e, .error e' =>
    if h : e = e' then .isTrue (by rw [h]) else .isFalse (fun hh => h (Except.error.inj hh))
  | .ok a, .ok b =>
    if h : a = b then .isTrue (by rw [h]) else .isFalse (fun hh => h (Except.ok.inj hh))
  | .error _, .ok _ => .isFalse (fun hh => Except.noConfusion hh)
  | .ok _, .error _ => .isFalse (fun hh => Except.noConfusion hh)

/-! ### Little-endian integer decoding (struct module, "<" byte order) -/

/-- Unsigned little-endian value of a byte list. -/
def uLE : List Nat → Nat
  | [] => 0
  | b :: t => b + 256 * uLE t

/-- Signed little-endian value of the first `w` bytes (two's complement). -/
def sLE (w : Nat) (bs : List Nat) : Int :=
  let u := uLE (bs.take w)
  if 2 ^ (8 * w - 1) ≤ u then (u : Int) - 2 ^ (8 * w) else (u : Int)

/-- struct "<h": signed 16-bit little-endian. -/
def int16LE (bs : List Nat) : Int := sLE 2 bs

/-- struct "<q": signed 64-bit little-endian. -/
def int64LE (bs : List Nat) : Int := sLE 8 bs

/-! ### String helpers used by `Message.__post_init__` -/

/-- `leadsWith n h` is true when `n` is an initial run of `h`. -/
def leadsWith : List Char → List Char → Bool
  | [], _ => true
  | _ :: _, [] => false
  | a :: as, b :: bs => a = b && leadsWith as bs

/-- Occurrence test for a character sequence (Python `needle in s`). -/
def containsSeq : List Char → List Char → Bool
  | n, [] => n.isEmpty
  | n, h :: t => leadsWith n (h :: t) || containsSeq n t

/-- Characters before the first occurrence of `sep` (the whole list when
`sep` does not occur), i.e. Python `s.split(sep)[0]`. -/
def beforeSeq (sep : List Char) : List Char → List Char
  | [] => []
  | h :: t => if leadsWith sep (h :: t) then [] else h :: beforeSeq sep t

/-- Python `needle in s` on strings. -/
def containsSub (needle s : String) : Bool := containsSeq needle.data s.data

/-- Python `s.split(sep)[0]`. -/
def beforeStr (sep s : String) : String := String.mk (beforeSeq sep.data s.data)

/-- ASCII whitespace bytes stripped by Python `str.strip()`. -/
def isWS (b : Nat) : Bool := b = 9 || b = 10 || b = 11 || b = 12 || b = 13 || b = 32

/-- Python `bytes.decode("utf-8").strip()` for the ASCII byte strings of
the wire format: drop leading and trailing whitespace, view as text. -/
def stripBytes (bs : List Nat) : List Nat :=
  ((bs.dropWhile isWS).reverse.dropWhile isWS).reverse

/-- Bytes to text (fields on the wire are ASCII). -/
def bytesToStr (bs : List Nat) : String := String.mk (bs.map Char.ofNat)

/-! ### Attribute stores (the `__slots__` based Python objects) -/

/-- `getattr`: first binding of the name, if any. -/
def attrGet (a : List (String × Value)) (n : String) : Option Value :=
  (a.find? (fun p => p.1 = n)).map (·.2)

/-- `setattr`: replace an existing binding or append a new one. -/
def attrSet (a : List (String × Value)) (n : String) (v : Value) : List (String × Value) :=
  if (a.find? (fun p => p.1 = n)).isSome then
    a.map (fun p => if p.1 = n then (n, v) else p)
  else
    a ++ [(n, v)]

/-- A decoded message object: its dataclass and its attribute store. -/
structure Msg where
  kind : MsgKind
  attrs : List (String × Value)
deriving DecidableEq

/-! ### The message registry (MessageDecoder.message_types) -/

/-- One struct format code with its width: `u8`=B, `u32`=L, `i32`=l,
`i64`=q, `strN n`=ns, `pad`=x. -/
inductive FieldType where
  | u8
  | u32
  | i32
  | i64
  | strN (n : Nat)
  | pad
deriving DecidableEq

/-- Byte width of one format code. -/
def fieldWidth : FieldType → Nat
  | .u8 => 1
  | .u32 => 4
  | .i32 => 4
  | .i64 => 8
  | .strN n => n
  | .pad => 1

/-- struct.calcsize for a "<"-prefixed format. -/
def calcsize (fmt : List FieldType) : Nat := (fmt.map fieldWidth).sum

/-- Unpack fields from a byte list whose length equals `calcsize fmt`
(pad bytes are consumed and yield no value, as in struct.unpack). -/
def unpackFields : List FieldType → List Nat → List Value
  | [], _ => []
  | f :: fs, b =>
    match f with
    | .pad => unpackFields fs (b.drop 1)
    | .u8 => .int (uLE (b.take 1)) :: unpackFields fs (b.drop 1)
    | .u32 => .int (uLE (b.take 4)) :: unpackFields fs (b.drop 4)
    | .i32 => .int (sLE 4 (b.take 4)) :: unpackFields fs (b.drop 4)
    | .i64 => .int (sLE 8 (b.take 8)) :: unpackFields fs (b.drop 8)
    | .strN n => .bytes (b.take n) :: unpackFields fs (b.drop n)

/-- struct.unpack: struct.error when the buffer length differs from the
format's size, otherwise the decoded values. -/
def structUnpack (fmt : List FieldType) (b : List Nat) : Except Err (List Value) :=
  if b.length = calcsize fmt then .ok (unpackFields fmt b) else .error .structError

-- The struct format strings of messages.py, as field lists.
def fmtBq : List FieldType := [.u8, .i64]
def fmtBq8sLqB : List FieldType := [.u8, .i64, .strN 8, .u32, .i64, .u8]
def fmt1sq8s4s : List FieldType := [.strN 1, .i64, .strN 8, .strN 4]
def fmt1sq8s : List FieldType := [.strN 1, .i64, .strN 8]
def fmtBq8s1s : List FieldType := [.u8, .i64, .strN 8, .strN 1]
def fmtBq8s : List FieldType := [.u8, .i64, .strN 8]
def fmtBq8slq : List FieldType := [.u8, .i64, .strN 8, .i32, .i64]
def fmtBq8sLqqL : List FieldType := [.u8, .i64, .strN 8, .u32, .i64, .i64, .u32]
def fmtBq8sLqq : List FieldType := [.u8, .i64, .strN 8, .u32, .i64, .i64]
def fmt1sq8sq : List FieldType := [.strN 1, .i64, .strN 8, .i64]
def fmt1sq8sLqq : List FieldType := [.strN 1, .i64, .strN 8, .u32, .i64, .i64]
def fmtAuction : List FieldType :=
  [.strN 1, .i64, .strN 8, .u32, .i64, .i64, .u32, .strN 1, .u8, .u32, .i64, .i64, .i64, .i64]
def fmtBq8sLqqx4 : List FieldType := [.u8, .i64, .strN 8, .u32, .i64, .i64, .pad, .pad, .pad, .pad]
def fmt1sq8sqqx4 : List FieldType := [.strN 1, .i64, .strN 8, .i64, .i64, .pad, .pad, .pad, .pad]

/-- `MessageDecoder.message_types[version]` as an association list
tag ↦ (format, class). -/
def msgTable : Ver → List (Nat × List FieldType × MsgKind)
  | .v1_0 =>
    [ (0x53, fmtBq, .SystemEvent),
      (0x44, fmtBq8sLqB, .SecurityDirective),
      (0x48, fmt1sq8s4s, .TradingStatus),
      (0x4f, fmt1sq8s, .OperationalHalt),
      (0x50, fmtBq8s1s, .ShortSalePriceSale),
      (0x45, fmtBq8s, .SecurityEvent),
      (0x38, fmtBq8slq, .BidPriceLevelUpdate),
      (0x35, fmtBq8slq, .AskPriceLevelUpdate),
      (0x54, fmtBq8sLqq, .TradeReport),
      (0x58, fmt1sq8sq, .OfficialPrice),
      (0x42, fmt1sq8sLqq, .TradeBreak),
      (0x41, fmtAuction, .AuctionInformation) ]
  | .v1_6 =>
    [ (0x53, fmtBq, .SystemEvent),
      (0x44, fmtBq8sLqB, .SecurityDirective),
      (0x48, fmt1sq8s4s, .TradingStatus),
      (0x4f, fmt1sq8s, .OperationalHalt),
      (0x50, fmtBq8s1s, .ShortSalePriceSale),
      (0x51, fmtBq8sLqqL, .QuoteUpdate),
      (0x54, fmtBq8sLqq, .TradeReport),
      (0x58, fmt1sq8sq, .OfficialPrice),
      (0x42, fmt1sq8sLqq, .TradeBreak),
      (0x41, fmtAuction, .AuctionInformation) ]
  | .v1_5 =>
    [ (0x51, fmtBq8sLqqL, .QuoteUpdate),
      (0x54, fmtBq8sLqqx4, .TradeReport),
      (0x42, fmt1sq8sqqx4, .TradeBreak) ]

/-- `DECODE_FMT`/`MSG_CLS` lookup: the entry registered for a tag under
the active version. -/
def lookupFmt (v : Ver) (t : Nat) : Option (List FieldType × MsgKind) :=
  ((msgTable v).find? (fun e => e.1 = t)).map (·.2)

/-- `Parser.messages_types`: the tag byte the parser associates to each
message class (used to build `allowed_types` for filtering). -/
def parserTag : MsgKind → Nat
  | .ShortSalePriceSale => 0x50
  | .TradeBreak => 0x42
  | .AuctionInformation => 0x41
  | .TradeReport => 0x54
  | .OfficialPrice => 0x58
  | .SystemEvent => 0x53
  | .SecurityDirective => 0x44
  | .TradingStatus => 0x48
  | .OperationalHalt => 0x4f
  | .QuoteUpdate => 0x51
  | .SecurityEvent => 0x45
  | .BidPriceLevelUpdate => 0x38
  | .AskPriceLevelUpdate => 0x35

/-! ### Message dataclasses: slots, constructor fields, post-init -/

/-- The `__slots__` tuple declared on each dataclass in messages.py,
verbatim (including derived attribute names such as "price"). -/
def slotsOf : MsgKind → List String
  | .SystemEvent => ["system_event", "timestamp", "system_event_str"]
  | .SecurityDirective =>
    ["flags", "timestamp", "symbol", "round_lot_size", "adjusted_poc_close", "luld_tire",
     "price"]
  | .TradingStatus => ["status", "timestamp", "symbol", "reason", "trading_status_message"]
  | .OperationalHalt => ["halt_status", "timestamp", "symbol"]
  | .ShortSalePriceSale => ["short_sale_status", "timestamp", "symbol", "detail"]
  | .SecurityEvent => ["security_event", "timestamp", "symbol"]
  | .BidPriceLevelUpdate => ["event_flags", "timestamp", "symbol", "size", "price_int", "price"]
  | .AskPriceLevelUpdate => ["event_flags", "timestamp", "symbol", "size", "price_int", "price"]
  | .QuoteUpdate =>
    ["flags", "timestamp", "symbol", "bid_size", "bid_price_int", "ask_price_int", "ask_size",
     "bid_price", "ask_price"]
  | .TradeReport => ["flags", "timestamp", "symbol", "size", "price_int", "trade_id", "price"]
  | .OfficialPrice => ["price_type", "timestamp", "symbol", "price_int", "price"]
  | .TradeBreak => ["sale_flags", "timestamp", "symbol", "size", "price_int", "price", "trade_id"]
  | .AuctionInformation =>
    ["auction_type", "timestamp", "symbol", "paired_shares", "reference_price_int",
     "indicative_clearing_price_int", "imbalance_shares", "imbalance_side", "extension_number",
     "scheduled_auction_time", "auction_book_clearing_price_int", "collar_reference_price_int",
     "lower_auction_collar_price_int", "upper_auction_collar_price_int", "reference_price",
     "indicative_clearing_price", "auction_book_clearing_price", "collar_reference_price",
     "lower_auction_collar_price", "upper_auction_collar_price"]

/-- The annotated dataclass fields of each class, in declaration order:
these are the positional parameters of the generated `__init__`. -/
def ctorParams : MsgKind → List String
  | .SystemEvent => ["system_event", "timestamp"]
  | .SecurityDirective =>
    ["flags", "timestamp", "symbol", "round_lot_size", "adjusted_poc_close", "luld_tire"]
  | .TradingStatus => ["status", "timestamp", "symbol", "reason"]
  | .OperationalHalt => ["halt_status", "timestamp", "symbol"]
  | .ShortSalePriceSale => ["short_sale_status", "timestamp", "symbol", "detail"]
  | .SecurityEvent => ["security_event", "timestamp", "symbol"]
  | .BidPriceLevelUpdate => ["event_flags", "timestamp", "symbol", "size", "price_int"]
  | .AskPriceLevelUpdate => ["event_flags", "timestamp", "symbol", "size", "price_int"]
  | .QuoteUpdate =>
    ["flags", "timestamp", "symbol", "bid_size", "bid_price_int", "ask_price_int", "ask_size"]
  | .TradeReport => ["flags", "timestamp", "symbol", "size", "price_int", "trade_id"]
  | .OfficialPrice => ["price_type", "timestamp", "symbol", "price_int"]
  | .TradeBreak => ["sale_flags", "timestamp", "symbol", "size", "price_int", "trade_id"]
  | .AuctionInformation =>
    ["auction_type", "timestamp", "symbol", "paired_shares", "reference_price_int",
     "indicative_clearing_price_int", "imbalance_shares", "imbalance_side", "extension_number",
     "scheduled_auction_time", "auction_book_clearing_price_int", "collar_reference_price_int",
     "lower_auction_collar_price_int", "upper_auction_collar_price_int"]

/-- `system_event_types` of messages.py. -/
def sysEventTypes (c : Int) : Option String :=
  if c = 79 then some "start_of_messages"
  else if c = 83 then some "start_of_system_hours"
  else if c = 82 then some "start_of_regular_hours"
  else if c = 67 then some "end_of_messages"
  else if c = 69 then some "end_of_system_hours"
  else if c = 77 then some "end_of_regular_hours"
  else none

/-- `trading_status_messages` of messages.py. -/
def tradingStatusMessages (k : String) : Option String :=
  if k = "H" then some "Trading halted across all US equity markets"
  else if k = "O" then
    some "Trading halt released into an Order Acceptance Period on IEX (IEX-listed securities only)"
  else if k = "P" then
    some "Trading paused and Order Acceptance Period on IEX (IEX-listed securities only)"
  else if k = "T" then some "Trading on IEX"
  else none

/-- The byte-string attributes `Message.__post_init__` decodes and strips. -/
def strFields : List String := ["symbol", "status", "reason", "detail", "halt_status"]

/-- One pass of the str-field loop: decode the attribute when it is bytes. -/
def decodeStrField (a : List (String × Value)) (n : String) : List (String × Value) :=
  match attrGet a n with
  | some (.bytes bs) => attrSet a n (.str (bytesToStr (stripBytes bs)))
  | _ => a

/-- The price-derivation loop of `Message.__post_init__`: for each slot
name containing both "price" and "int", set the attribute named by the
part before "_int" to the raw value divided by 10^4.  `getattr` on an
unset slot raises AttributeError, division of a non-int raises TypeError. -/
def setPrices : List String → List (String × Value) → Except Err (List (String × Value))
  | [], a => .ok a
  | ip :: rest, a =>
    match attrGet a ip with
    | some (.int v) => setPrices rest (attrSet a (beforeStr "_int" ip) (.rat ((v : ℚ) / 10 ^ 4)))
    | some _ => .error .typeError
    | none => .error .attributeError

/-- `Message.__post_init__`: set `date_time` from `timestamp`, decode the
byte-string fields, then derive the scaled prices discovered by the
name-based scan over `__slots__`. -/
def postInitBase (slots : List String) (a0 : List (String × Value)) :
    Except Err (List (String × Value)) :=
  match attrGet a0 "timestamp" with
  | some (.int ts) =>
    let a1 := attrSet a0 "date_time" (.rat ((ts : ℚ) / 10 ^ 9))
    let a2 := strFields.foldl decodeStrField a1
    let intPrices := slots.filter (fun p => containsSub "price" p && containsSub "int" p)
    setPrices intPrices a2
  | some _ => .error .typeError
  | none => .error .attributeError

/-- The subclass `__post_init__` additions of `SystemEvent` and
`TradingStatus` (enumerated-code lookups; a missing key raises KeyError). -/
def postExtra (k : MsgKind) (a : List (String × Value)) :
    Except Err (List (String × Value)) :=
  match k with
  | .SystemEvent =>
    match attrGet a "system_event" with
    | some (.int c) =>
      match sysEventTypes c with
      | some s => .ok (attrSet a "system_event_str" (.str s))
      | none => .error .keyError
    | _ => .error .keyError
  | .TradingStatus =>
    match attrGet a "status" with
    | some (.str st) =>
      match tradingStatusMessages st with
      | some m => .ok (attrSet a "trading_status_message" (.str m))
      | none => .error .keyError
    | _ => .error .keyError
  | _ => .ok a

/-- `MSG_CLS[msg_type](*decoded_msg)`: bind the unpacked values to the
annotated fields positionally (wrong arity is a TypeError), then run the
post-init chain. -/
def construct (k : MsgKind) (vals : List Value) : Except Err Msg :=
  let params := ctorParams k
  if vals.length = params.length then
    match postInitBase (slotsOf k) (params.zip vals) with
    | .error e => .error e
    | .ok a1 =>
      match postExtra k a1 with
      | .error e => .error e
      | .ok a2 => .ok ⟨k, a2⟩
  else .error .typeError

/-- `MessageDecoder.decode_message`: unknown tags raise
`ProtocolException` naming the tag; registered tags unpack the payload
(struct.error on a size mismatch) and build the message object. -/
def decodeMessage (v : Ver) (t : Nat) (b : List Nat) : Except Err Msg :=
  match lookupFmt v t with
  | none => .error (.protocolError t)
  | some (fmt, k) =>
    match structUnpack fmt b with
    | .error e => .error e
    | .ok vals => construct k vals

/-! ### Parser state and byte-level operations (IEXparser.py) -/

/-- The mutable attributes of a `Parser` instance that the byte-level
methods touch: the unread remainder of the open file, the `bytes_read`
counter, the active segment trailer fields, and the last frame's type
tag and payload.  `message_type`/`message_binary` start at harmless
defaults (Python leaves them unset until the first frame is read). -/
structure PState where
  stream : List Nat
  bytesRead : Nat
  messagesLeft : Int
  curMsgPayloadLen : Int
  curStreamOffset : Int
  firstSequenceNumber : Int
  curSendTime : ℚ
  messageType : Nat
  messageBinary : List Nat
deriving DecidableEq

/-- Fresh parser state over a byte stream (`messages_left = 0`,
`bytes_read = 0` as set at the end of `Parser.__init__`). -/
def mkState (bs : List Nat) : PState :=
  { stream := bs, bytesRead := 0, messagesLeft := 0, curMsgPayloadLen := 0,
    curStreamOffset := 0, firstSequenceNumber := 0, curSendTime := 0,
    messageType := 0, messageBinary := [] }

/-- `Parser.read_chunk`: `data = file.read(chunk)` (a negative count
reads to end of file, otherwise at most `chunk` bytes — fewer when fewer
remain), `bytes_read += len(data)`, and `StopIteration` when `data` is
empty. -/
def readChunk (chunk : Int) (s : PState) : Except Err (List Nat × PState) :=
  let data := if chunk < 0 then s.stream else s.stream.take chunk.toNat
  let rest := if chunk < 0 then [] else s.stream.drop chunk.toNat
  if data.isEmpty then .error .endOfStream
  else .ok (data, { s with stream := rest, bytesRead := s.bytesRead + data.length })

/-- The scanning loop of `Parser._seek_header` over a raw byte list:
read one byte at a time, advance the partial-match index `i` on a match
against `tp[i]`, reset it to 0 otherwise, and stop once `i` reaches
`len(tp)`.  Returns (bytes consumed, unread remainder); reading at end
of stream raises `StopIteration` exactly as `read_chunk(1)` does. -/
def seekScanL (tp : List Nat) : List Nat → Nat → Except Err (Nat × List Nat)
  | [], _ => .error .endOfStream
  | b :: rest, i =>
    if b = tp.getD i 0 then
      if i + 1 = tp.length then .ok (1, rest)
      else
        match seekScanL tp rest (i + 1) with
        | .ok (k, r) => .ok (k + 1, r)
        | .error e => .error e
    else
      match seekScanL tp rest 0 with
      | .ok (k, r) => .ok (k + 1, r)
      | .error e => .error e

/-- `Parser._seek_header`: scan for the 12-byte transport-protocol
header prefix `tp`, then `struct.unpack("<hhqqq", read_chunk(28))` into
the segment trailer fields (a short trailer read is a struct.error). -/
def seekHeader (tp : List Nat) (s : PState) : Except Err PState :=
  match seekScanL tp s.stream 0 with
  | .error e => .error e
  | .ok (k, rest) =>
    let s1 : PState := { s with stream := rest, bytesRead := s.bytesRead + k }
    match readChunk 28 s1 with
    | .error e => .error e
    | .ok (d, s2) =>
      if d.length = 28 then
        .ok { s2 with
          curMsgPayloadLen := int16LE (d.take 2),
          messagesLeft := int16LE ((d.drop 2).take 2),
          curStreamOffset := int64LE ((d.drop 4).take 8),
          firstSequenceNumber := int64LE ((d.drop 12).take 8),
          curSendTime := (int64LE ((d.drop 20).take 8) : ℚ) / 10 ^ 9 }
      else .error .structError

/-- The scanning loop of `Parser._get_session_id`: `market_file.read(1)`
followed by `cur_chunk[0]`, which raises IndexError on the empty read at
end of stream; once the 8-byte prefix matches, `read(4)` returns up to 4
bytes with no length check.  The `ProtocolException` raise after the
loop is unreachable. -/
def sessScan (pfx : List Nat) : List Nat → Nat → Except Err (List Nat)
  | [], _ => .error .indexError
  | b :: rest, i =>
    if b = pfx.getD i 0 then
      if i + 1 = pfx.length then .ok (rest.take 4)
      else sessScan pfx rest (i + 1)
    else sessScan pfx rest 0

/-- `Parser._read_next_message`: length (short unpack is a struct.error),
decrement `messages_left`, one tag byte, then `read_chunk(length - 1)`
as the payload. -/
def readNextMessage (s : PState) : Except Err PState :=
  match readChunk 2 s with
  | .error e => .error e
  | .ok (d, s1) =>
    if d.length = 2 then
      let mlen := int16LE d
      let s2 : PState := { s1 with messagesLeft := s1.messagesLeft - 1 }
      match readChunk 1 s2 with
      | .error e => .error e
      | .ok (t, s3) =>
        match readChunk (mlen - 1) { s3 with messageType := t.getD 0 0 } with
        | .error e => .error e
        | .ok (pl, s4) => .ok { s4 with messageBinary := pl }
    else .error .structError

/-- Fuel-indexed form of `while not self.messages_left: self._seek_header()`. -/
def seekLoopF (tp : List Nat) : Nat → PState → Except Err PState
  | 0, _ => .error .endOfStream
  | fuel + 1, s =>
    if s.messagesLeft = 0 then
      match seekHeader tp s with
      | .error e => .error e
      | .ok s' => seekLoopF tp fuel s'
    else .ok s

/-- `while not self.messages_left: self._seek_header()` (each successful
`_seek_header` consumes at least 40 bytes, so `length + 1` fuel always
suffices; `seekLoop_eq` below recovers the loop's defining equation). -/
def seekLoop (tp : List Nat) (s : PState) : Except Err PState :=
  seekLoopF tp (s.stream.length + 1) s

/-- The seek-loop followed by `_read_next_message`: produces the next
frame's tag and payload in the state. -/
def nextFrame (tp : List Nat) (s : PState) : Except Err PState :=
  match seekLoop tp s with
  | .error e => .error e
  | .ok s1 => readNextMessage s1

/-- Fuel-indexed form of the filtering loop of `get_next_message`. -/
def filterLoopF (tp : List Nat) (ts : List Nat) : Nat → PState → Except Err PState
  | 0, _ => .error .endOfStream
  | fuel + 1, s =>
    if s.messageType ∈ ts then .ok s
    else
      match nextFrame tp s with
      | .error e => .error e
      | .ok s' => filterLoopF tp ts fuel s'

/-- `while allowed is not None and self.message_type not in allowed_types:
(seek loop; _read_next_message)`. -/
def filterLoop (tp : List Nat) (ts : List Nat) (s : PState) : Except Err PState :=
  filterLoopF tp ts (s.stream.length + 1) s

/-- `Parser.get_next_message(allowed)`.  `allowed = none` is Python
`None`; `some l` is a list argument (which passes the isinstance check).
`allowed_types` is assigned only under `if allowed:` — for the empty
list it stays unbound and the filtering loop's condition raises
UnboundLocalError, after the first frame has already been read.  The
surviving frame is decoded with `MessageDecoder.decode_message`. -/
def getNextMessage (v : Ver) (allowed : Option (List MsgKind)) (tp : List Nat) (s : PState) :
    Except Err (Msg × PState) :=
  let allowedTypes : Option (List Nat) :=
    match allowed with
    | some l => if l.isEmpty then none else some (l.map parserTag)
    | none => none
  match nextFrame tp s with
  | .error e => .error e
  | .ok s2 =>
    match allowed with
    | none =>
      match decodeMessage v s2.messageType s2.messageBinary with
      | .error e => .error e
      | .ok m => .ok (m, s2)
    | some _ =>
      match allowedTypes with
      | none => .error .unboundLocalError
      | some ts =>
        match filterLoop tp ts s2 with
        | .error e => .error e
        | .ok s3 =>
          match decodeMessage v s3.messageType s3.messageBinary with
          | .error e => .error e
          | .ok m => .ok (m, s3)

/-- Fuel-indexed full-file iteration: call `get_next_message` until it
raises, collecting the returned messages and the terminating error. -/
def runAllF (v : Ver) (allowed : Option (List MsgKind)) (tp : List Nat) :
    Nat → PState → List Msg × Err
  | 0, _ => ([], .endOfStream)
  | fuel + 1, s =>
    match getNextMessage v allowed tp s with
    | .error e => ([], e)
    | .ok (m, s') =>
      let r := runAllF v allowed tp fuel s'
      (m :: r.1, r.2)

/-- Full-file iteration (`for message in parser`): the list of messages
yielded before the iteration terminates, and the terminating error. -/
def runAll (v : Ver) (allowed : Option (List MsgKind)) (tp : List Nat) (s : PState) :
    List Msg × Err :=
  runAllF v allowed tp (s.stream.length + 1) s

/-- Configuration computed by the branch ladder at the top of
`Parser.__init__`: the protocol id bytes and the effective version
passed on to `MessageDecoder`. -/
structure InitConfig where
  protocolId : List Nat
  effectiveVersion : ℚ
deriving DecidableEq

/-- The `protcol_ids` dict of `Parser.__init__` (float keys 1.5, 1.6;
any other version is a KeyError). -/
def protocolIds (version : ℚ) : Option (List Nat) :=
  if version = 3 / 2 then some [0x02, 0x80]
  else if version = 8 / 5 then some [0x03, 0x80]
  else none

/-- The version/protocol branch ladder of `Parser.__init__`, verbatim:
`if tops and not deep: ... elif deep: ... elif deep and tops: raise
ValueError(...)`.  When no branch fires (`tops=deep=False`),
`self.protocol_id` is never assigned and its first use raises
AttributeError. -/
def initProtocol (tops deep : Bool) (version : ℚ) : Except Err InitConfig :=
  if tops && !deep then
    match protocolIds version with
    | some pid => .ok ⟨pid, version⟩
    | none => .error .keyError
  else if deep then .ok ⟨[0x04, 0x80], 1⟩
  else if deep && tops then .error .valueError
  else .error .attributeError

/-! ### Observation helpers for closed statements -/

/-- Length of the returned chunk (0 on error). -/
def chunkLen (r : Except Err (List Nat × PState)) : Nat :=
  match r with
  | .ok (d, _) => d.length
  | .error _ => 0

/-- `bytes_read` of a successful state (0 on error). -/
def bytesAfter (r : Except Err PState) : Nat :=
  match r with
  | .ok s => s.bytesRead
  | .error _ => 0

/-- Remaining stream length of a successful state (0 on error). -/
def streamLenAfter (r : Except Err PState) : Nat :=
  match r with
  | .ok s => s.stream.length
  | .error _ => 0

/-- Whether a result is a `ProtocolException` (of any tag). -/
def isProtoErr {α : Type} (r : Except Err α) : Bool :=
  match r with
  | .error (.protocolError _) => true
  | _ => false

/-! ### Concrete fixtures -/

/-- A session id for fixtures. -/
def sessEx : List Nat := [9, 9, 9, 9]

/-- A 12-byte TOPS 1.6 transport-protocol header prefix:
version ++ reserved ++ protocol_id ++ channel_id ++ session_id. -/
def tpEx : List Nat := [0x01, 0x00, 0x03, 0x80, 0x01, 0x00, 0x00, 0x00] ++ sessEx

/-- A 28-byte segment trailer with `message_count = 2` and zeroed
offsets/sequence/send time. -/
def trailerEx : List Nat := [50, 0, 2, 0] ++ List.replicate 24 0

/-- A Trade Report frame: length 38, tag 0x54, 37-byte payload with
flags 0, timestamp 0, symbol "ZIEXT   ", size 100, price_int 123400,
trade_id 7. -/
def frameTR : List Nat :=
  [38, 0, 0x54] ++ [0] ++ List.replicate 8 0 ++ [90, 73, 69, 88, 84, 32, 32, 32] ++
    [100, 0, 0, 0] ++ [8, 226, 1, 0, 0, 0, 0, 0] ++ [7, 0, 0, 0, 0, 0, 0, 0]

/-- A System Event frame: length 10, tag 0x53, payload with event code
79 ("start_of_messages") and timestamp 0. -/
def frameSE : List Nat := [10, 0, 0x53] ++ [79] ++ List.replicate 8 0

/-- A complete one-segment capture: header prefix, trailer announcing
two messages, then a Trade Report and a System Event frame. -/
def streamEx : List Nat := tpEx ++ trailerEx ++ frameTR ++ frameSE

/-! ### Consumption lemmas: every successful read shortens the stream -/

theorem readChunk_ok_lt {n : Int} {s : PState} {d : List Nat} {s' : PState}
    (h : readChunk n s = .ok (d, s')) : s'.stream.length < s.stream.length := by
  by_cases hneg : n < 0
  · by_cases hemp : s.stream.isEmpty
    · simp [readChunk, if_pos hneg, hemp] at h
    · simp only [readChunk, if_pos hneg, hemp, Bool.false_eq_true, if_false,
        Except.ok.injEq, Prod.mk.injEq] at h
      obtain ⟨hd, hs⟩ := h
      subst hs
      simp only [List.isEmpty_iff] at hemp
      simpa using List.length_pos.mpr hemp
  · by_cases hemp : (s.stream.take n.toNat).isEmpty
    · simp [readChunk, if_neg hneg, hemp] at h
    · simp only [readChunk, if_neg hneg, hemp, Bool.false_eq_true, if_false,
        Except.ok.injEq, Prod.mk.injEq] at h
      obtain ⟨hd, hs⟩ := h
      subst hs
      simp only [List.isEmpty_iff, List.take_eq_nil_iff, not_or] at hemp
      obtain ⟨h1, h2⟩ := hemp
      have h2' : 0 < s.stream.length := List.length_pos.mpr h2
      simp only [List.length_drop]
      omega

theorem readChunk_ok_stream {n : Int} {s : PState} {d : List Nat} {s' : PState}
    (hn : ¬ n < 0) (h : readChunk n s = .ok (d, s')) :
    d = s.stream.take n.toNat ∧ s'.stream = s.stream.drop n.toNat ∧
      s'.bytesRead = s.bytesRead + d.length := by
  by_cases hemp : (s.stream.take n.toNat).isEmpty
  · simp [readChunk, if_neg hn, hemp] at h
  · simp only [readChunk, if_neg hn, hemp, Bool.false_eq_true, if_false,
      Except.ok.injEq, Prod.mk.injEq] at h
    obtain ⟨hd, hs⟩ := h
    subst hd hs
    exact ⟨rfl, rfl, rfl⟩

theorem seekScanL_ok (tp : List Nat) :
    ∀ (s : List Nat) (i k : Nat) (r : List Nat),
      seekScanL tp s i = .ok (k, r) → 1 ≤ k ∧ k + r.length = s.length := by
  intro s
  induction s with
  | nil => intro i k r h; simp [seekScanL] at h
  | cons b rest ih =>
    intro i k r h
    simp only [seekScanL] at h
    by_cases hb : b = tp.getD i 0
    · rw [if_pos hb] at h
      by_cases hi : i + 1 = tp.length
      · rw [if_pos hi] at h
        simp only [Except.ok.injEq, Prod.mk.injEq] at h
        obtain ⟨hk, hr⟩ := h
        subst hk hr
        simp only [List.length_cons]
        omega
      · rw [if_neg hi] at h
        cases hrec : seekScanL tp rest (i + 1) with
        | error e => rw [hrec] at h; cases h
        | ok p =>
          obtain ⟨k', r'⟩ := p
          rw [hrec] at h
          simp only [Except.ok.injEq, Prod.mk.injEq] at h
          obtain ⟨hk, hr⟩ := h
          subst hk hr
          have := ih (i + 1) k' r' hrec
          simp only [List.length_cons]
          omega
    · rw [if_neg hb] at h
      cases hrec : seekScanL tp rest 0 with
      | error e => rw [hrec] at h; cases h
      | ok p =>
        obtain ⟨k', r'⟩ := p
        rw [hrec] at h
        simp only [Except.ok.injEq, Prod.mk.injEq] at h
        obtain ⟨hk, hr⟩ := h
        subst hk hr
        have := ih 0 k' r' hrec
        simp only [List.length_cons]
        omega

theorem seekHeader_ok_lt {tp : List Nat} {s s' : PState}
    (h : seekHeader tp s = .ok s') : s'.stream.length < s.stream.length := by
  simp only [seekHeader] at h
  cases hscan : seekScanL tp s.stream 0 with
  | error e => simp [hscan] at h
  | ok p =>
    obtain ⟨k, rest⟩ := p
    simp only [hscan] at h
    have hlt := seekScanL_ok tp s.stream 0 k rest hscan
    cases hrc : readChunk 28 { s with stream := rest, bytesRead := s.bytesRead + k } with
    | error e => simp [hrc] at h
    | ok q =>
      obtain ⟨d, s2⟩ := q
      simp only [hrc] at h
      have h2 := readChunk_ok_lt hrc
      by_cases h28 : d.length = 28
      · rw [if_pos h28] at h
        simp only [Except.ok.injEq] at h
        subst h
        simp only at h2 ⊢
        omega
      · rw [if_neg h28] at h
        cases h

theorem seekLoopF_ok_le {tp : List Nat} :
    ∀ (fuel : Nat) (s s' : PState), seekLoopF tp fuel s = .ok s' →
      s'.stream.length ≤ s.stream.length := by
  intro fuel
  induction fuel with
  | zero => intro s s' h; cases h
  | succ n ih =>
    intro s s' h
    simp only [seekLoopF] at h
    split at h
    · cases hsh : seekHeader tp s with
      | error e => simp [hsh] at h
      | ok s1 =>
        simp only [hsh] at h
        have h1 := seekHeader_ok_lt hsh
        have h2 := ih s1 s' h
        omega
    · simp only [Except.ok.injEq] at h
      subst h
      exact le_refl _

theorem seekLoopF_congr {tp : List Nat} :
    ∀ (f₁ f₂ : Nat) (s : PState), s.stream.length < f₁ → s.stream.length < f₂ →
      seekLoopF tp f₁ s = seekLoopF tp f₂ s := by
  intro f₁
  induction f₁ with
  | zero => intro f₂ s h₁ h₂; omega
  | succ n ih =>
    intro f₂ s h₁ h₂
    cases f₂ with
    | zero => omega
    | succ m =>
      simp only [seekLoopF]
      split
      · cases hsh : seekHeader tp s with
        | error e => rfl
        | ok s1 =>
          have hlt := seekHeader_ok_lt hsh
          exact ih m s1 (by omega) (by omega)
      · rfl

/-- The defining equation of `while not self.messages_left:
self._seek_header()` holds for the fuel wrapper. -/
theorem seekLoop_eq (tp : List Nat) (s : PState) :
    seekLoop tp s =
      if s.messagesLeft = 0 then
        match seekHeader tp s with
        | .error e => .error e
        | .ok s' => seekLoop tp s'
      else .ok s := by
  simp only [seekLoop, seekLoopF]
  split
  · cases hsh : seekHeader tp s with
    | error e => rfl
    | ok s1 =>
      have hlt := seekHeader_ok_lt hsh
      exact seekLoopF_congr s.stream.length (s1.stream.length + 1) s1 (by omega) (by omega)
  · rfl

theorem seekLoop_ok_le {tp : List Nat} {s s' : PState}
    (h : seekLoop tp s = .ok s') : s'.stream.length ≤ s.stream.length :=
  seekLoopF_ok_le _ s s' h

theorem readNextMessage_ok_lt {s s' : PState}
    (h : readNextMessage s = .ok s') : s'.stream.length < s.stream.length := by
  simp only [readNextMessage] at h
  split at h
  · exact absurd h (by simp)
  · rename_i d s1 h2
    have hl2 := readChunk_ok_lt h2
    split at h
    · split at h
      · exact absurd h (by simp)
      · rename_i t s3 h1
        have hl1 := readChunk_ok_lt h1
        split at h
        · exact absurd h (by simp)
        · rename_i pl s4 hp
          have hlp := readChunk_ok_lt hp
          simp only [Except.ok.injEq] at h
          subst h
          simp only at hl1 hlp ⊢
          omega
    · exact absurd h (by simp)

theorem nextFrame_ok_lt {tp : List Nat} {s s' : PState}
    (h : nextFrame tp s = .ok s') : s'.stream.length < s.stream.length := by
  simp only [nextFrame] at h
  cases hsl : seekLoop tp s with
  | error e => simp [hsl] at h
  | ok s1 =>
    simp only [hsl] at h
    have h1 := seekLoop_ok_le hsl
    have h2 := readNextMessage_ok_lt h
    omega

theorem filterLoopF_ok_le {tp ts : List Nat} :
    ∀ (fuel : Nat) (s s' : PState), filterLoopF tp ts fuel s = .ok s' →
      s'.stream.length ≤ s.stream.length := by
  intro fuel
  induction fuel with
  | zero => intro s s' h; cases h
  | succ n ih =>
    intro s s' h
    simp only [filterLoopF] at h
    split at h
    · simp only [Except.ok.injEq] at h
      subst h
      exact le_refl _
    · cases hnf : nextFrame tp s with
      | error e => simp [hnf] at h
      | ok s1 =>
        simp only [hnf] at h
        have h1 := nextFrame_ok_lt hnf
        have h2 := ih s1 s' h
        omega

theorem filterLoopF_congr {tp ts : List Nat} :
    ∀ (f₁ f₂ : Nat) (s : PState), s.stream.length < f₁ → s.stream.length < f₂ →
      filterLoopF tp ts f₁ s = filterLoopF tp ts f₂ s := by
  intro f₁
  induction f₁ with
  | zero => intro f₂ s h₁ h₂; omega
  | succ n ih =>
    intro f₂ s h₁ h₂
    cases f₂ with
    | zero => omega
    | succ m =>
      simp only [filterLoopF]
      split
      · rfl
      · cases hnf : nextFrame tp s with
        | error e => rfl
        | ok s1 =>
          have hlt := nextFrame_ok_lt hnf
          exact ih m s1 (by omega) (by omega)

/-- The defining equation of the filtering loop holds for the wrapper. -/
theorem filterLoop_eq (tp ts : List Nat) (s : PState) :
    filterLoop tp ts s =
      if s.messageType ∈ ts then .ok s
      else
        match nextFrame tp s with
        | .error e => .error e
        | .ok s' => filterLoop tp ts s' := by
  simp only [filterLoop, filterLoopF]
  split
  · rfl
  · cases hnf : nextFrame tp s with
    | error e => rfl
    | ok s1 =>
      have hlt := nextFrame_ok_lt hnf
      exact filterLoopF_congr s.stream.length (s1.stream.length + 1) s1 (by omega) (by omega)

theorem filterLoop_ok_le {tp ts : List Nat} {s s' : PState}
    (h : filterLoop tp ts s = .ok s') : s'.stream.length ≤ s.stream.length :=
  filterLoopF_ok_le _ s s' h

theorem getNextMessage_ok_lt {v : Ver} {allowed : Option (List MsgKind)} {tp : List Nat}
    {s : PState} {m : Msg} {s' : PState}
    (h : getNextMessage v allowed tp s = .ok (m, s')) :
    s'.stream.length < s.stream.length := by
  simp only [getNextMessage] at h
  cases hnf : nextFrame tp s with
  | error e => simp [hnf] at h
  | ok s2 =>
    simp only [hnf] at h
    have h2 := nextFrame_ok_lt hnf
    cases allowed with
    | none =>
      simp only at h
      cases hdm : decodeMessage v s2.messageType s2.messageBinary with
      | error e => simp [hdm] at h
      | ok m' =>
        simp only [hdm, Except.ok.injEq, Prod.mk.injEq] at h
        obtain ⟨hm, hs⟩ := h
        subst hs
        exact h2
    | some l =>
      simp only at h
      by_cases hl : l.isEmpty
      · simp only [hl, if_true] at h
        cases h
      · simp only [hl, Bool.false_eq_true, if_false] at h
        cases hfl : filterLoop tp (l.map parserTag) s2 with
        | error e => simp [hfl] at h
        | ok s3 =>
          simp only [hfl] at h
          have h3 := filterLoop_ok_le hfl
          cases hdm : decodeMessage v s3.messageType s3.messageBinary with
          | error e => simp [hdm] at h
          | ok m' =>
            simp only [hdm, Except.ok.injEq, Prod.mk.injEq] at h
            obtain ⟨hm, hs⟩ := h
            subst hs
            omega

theorem runAllF_congr {v : Ver} {allowed : Option (List MsgKind)} {tp : List Nat} :
    ∀ (f₁ f₂ : Nat) (s : PState), s.stream.length < f₁ → s.stream.length < f₂ →
      runAllF v allowed tp f₁ s = runAllF v allowed tp f₂ s := by
  intro f₁
  induction f₁ with
  | zero => intro f₂ s h₁ h₂; omega
  | succ n ih =>
    intro f₂ s h₁ h₂
    cases f₂ with
    | zero => omega
    | succ m =>
      simp only [runAllF]
      cases hg : getNextMessage v allowed tp s with
      | error e => rfl
      | ok p =>
        obtain ⟨msg, s1⟩ := p
        have hlt := getNextMessage_ok_lt hg
        dsimp only
        rw [ih m s1 (by omega) (by omega)]

/-- The defining equation of full-file iteration holds for the wrapper. -/
theorem runAll_eq (v : Ver) (allowed : Option (List MsgKind)) (tp : List Nat) (s : PState) :
    runAll v allowed tp s =
      match getNextMessage v allowed tp s with
      | .error e => ([], e)
      | .ok (m, s') =>
        ((m :: (runAll v allowed tp s').1, (runAll v allowed tp s').2)) := by
  have h0 : runAll v allowed tp s = runAllF v allowed tp (s.stream.length + 1) s := rfl
  rw [h0]
  simp only [runAllF]
  cases hg : getNextMessage v allowed tp s with
  | error e => rfl
  | ok p =>
    obtain ⟨msg, s1⟩ := p
    have hlt := getNextMessage_ok_lt hg
    have hc := @runAllF_congr v allowed tp s.stream.length (s1.stream.length + 1) s1
      (by omega) (by omega)
    dsimp only
    rw [hc]
    rfl

/-! ### Decoder lemmas -/

theorem construct_kind {k : MsgKind} {vals : List Value} {m : Msg}
    (h : construct k vals = .ok m) : m.kind = k := by
  simp only [construct] at h
  split at h
  · split at h
    · cases h
    · split at h
      · cases h
      · simp only [Except.ok.injEq] at h
        subst h
        rfl
  · cases h

theorem decodeMessage_cls {v : Ver} {t : Nat} {b : List Nat} {m : Msg}
    (h : decodeMessage v t b = .ok m) :
    ∃ fmt, lookupFmt v t = some (fmt, m.kind) := by
  simp only [decodeMessage] at h
  cases hl : lookupFmt v t with
  | none => simp [hl] at h
  | some p =>
    obtain ⟨fmt, k⟩ := p
    simp only [hl] at h
    cases hu : structUnpack fmt b with
    | error e => simp [hu] at h
    | ok vals =>
      simp only [hu] at h
      have := construct_kind h
      subst this
      exact ⟨fmt, rfl⟩

/-- Every registry entry carries the same tag that `Parser.messages_types`
assigns to its message class (checked over all three version tables). -/
theorem table_tag_coherent (v : Ver) (e : Nat × List FieldType × MsgKind)
    (he : e ∈ msgTable v) : parserTag e.2.2 = e.1 := by
  cases v <;> revert e <;> decide

theorem lookupFmt_tag {v : Ver} {t : Nat} {fmt : List FieldType} {k : MsgKind}
    (h : lookupFmt v t = some (fmt, k)) : parserTag k = t := by
  simp only [lookupFmt] at h
  cases hf : (msgTable v).find? (fun e => e.1 = t) with
  | none => simp [hf] at h
  | some e =>
    simp only [hf] at h
    have h2 : e.2 = (fmt, k) := by simpa using h
    have hmem := List.mem_of_find?_eq_some hf
    have hpred := List.find?_some hf
    have hco := table_tag_coherent v e hmem
    simp only [decide_eq_true_eq] at hpred
    rw [h2] at hco
    exact hco.trans hpred

theorem parserTag_inj : ∀ k k' : MsgKind, parserTag k = parserTag k' → k = k' := by
  intro k k' h
  cases k <;> cases k' <;> first | rfl | (exfalso; simp [parserTag] at h)

theorem setPrices_err : ∀ {l : List String} {a : List (String × Value)} {e : Err},
    setPrices l a = .error e → e = .attributeError ∨ e = .typeError := by
  intro l
  induction l with
  | nil => intro a e h; cases h
  | cons ip rest ih =>
    intro a e h
    simp only [setPrices] at h
    split at h
    · exact ih h
    · simp only [Except.error.injEq] at h
      subst h
      exact Or.inr rfl
    · simp only [Except.error.injEq] at h
      subst h
      exact Or.inl rfl

theorem postInitBase_err {slots : List String} {a : List (String × Value)} {e : Err}
    (h : postInitBase slots a = .error e) : e = .attributeError ∨ e = .typeError := by
  simp only [postInitBase] at h
  split at h
  · exact setPrices_err h
  · simp only [Except.error.injEq] at h
    subst h
    exact Or.inr rfl
  · simp only [Except.error.injEq] at h
    subst h
    exact Or.inl rfl

theorem postExtra_err {k : MsgKind} {a : List (String × Value)} {e : Err}
    (h : postExtra k a = .error e) : e = .keyError := by
  cases k <;> simp only [postExtra] at h <;>
    first
      | (cases h <;> rfl)
      | (split at h <;>
          first
            | (cases h <;> rfl)
            | (split at h <;> (cases h <;> rfl)))

theorem construct_err {k : MsgKind} {vals : List Value} {e : Err}
    (h : construct k vals = .error e) :
    e = .typeError ∨ e = .attributeError ∨ e = .keyError := by
  simp only [construct] at h
  split at h
  · cases hpi : postInitBase (slotsOf k) ((ctorParams k).zip vals) with
    | error e1 =>
      simp only [hpi, Except.error.injEq] at h
      subst h
      rcases postInitBase_err hpi with h1 | h1 <;> simp [h1]
    | ok a1 =>
      simp only [hpi] at h
      cases hpe : postExtra k a1 with
      | error e2 =>
        simp only [hpe, Except.error.injEq] at h
        subst h
        simp [postExtra_err hpe]
      | ok a2 => simp [hpe] at h
  · simp only [Except.error.injEq] at h
    subst h
    exact Or.inl rfl

theorem structUnpack_err {fmt : List FieldType} {b : List Nat} {e : Err}
    (h : structUnpack fmt b = .error e) : e = .structError := by
  simp only [structUnpack] at h
  split at h
  · cases h
  · simp only [Except.error.injEq] at h
    exact h.symm

/-- `decode_message` never raises `StopIteration`: its failures are the
unknown-tag `ProtocolException`, struct.error, or the constructor and
post-init exceptions. -/
theorem decodeMessage_err_ne_eos {v : Ver} {t : Nat} {b : List Nat} {e : Err}
    (h : decodeMessage v t b = .error e) : e ≠ .endOfStream := by
  simp only [decodeMessage] at h
  cases hl : lookupFmt v t with
  | none =>
    simp only [hl, Except.error.injEq] at h
    subst h
    simp
  | some p =>
    obtain ⟨fmt, k⟩ := p
    simp only [hl] at h
    cases hu : structUnpack fmt b with
    | error e1 =>
      simp only [hu, Except.error.injEq] at h
      subst h
      simp [structUnpack_err hu]
    | ok vals =>
      simp only [hu] at h
      rcases construct_err h with h1 | h1 | h1 <;> simp [h1]

/-! ### Shape lemmas for `get_next_message` -/

theorem getNextMessage_none (v : Ver) (tp : List Nat) (s : PState) :
    getNextMessage v none tp s =
      match nextFrame tp s with
      | .error e => .error e
      | .ok s2 =>
        match decodeMessage v s2.messageType s2.messageBinary with
        | .error e => .error e
        | .ok m => .ok (m, s2) := rfl

theorem getNextMessage_some {l : List MsgKind} (hne : l ≠ []) (v : Ver) (tp : List Nat)
    (s : PState) :
    getNextMessage v (some l) tp s =
      match nextFrame tp s with
      | .error e => .error e
      | .ok s2 =>
        match filterLoop tp (l.map parserTag) s2 with
        | .error e => .error e
        | .ok s3 =>
          match decodeMessage v s3.messageType s3.messageBinary with
          | .error e => .error e
          | .ok m => .ok (m, s3) := by
  have hemp : l.isEmpty = false := by
    cases l with
    | nil => exact absurd rfl hne
    | cons a t => rfl
  cases hnf : nextFrame tp s <;>
    simp only [getNextMessage, hemp, Bool.false_eq_true, if_false, hnf]

theorem getNextMessage_some_nil (v : Ver) (tp : List Nat) (s : PState) :
    getNextMessage v (some []) tp s =
      match nextFrame tp s with
      | .error e => .error e
      | .ok _ => .error .unboundLocalError := by
  cases hnf : nextFrame tp s <;> simp only [getNextMessage, List.isEmpty_nil, if_true, hnf]

/-- A frame tag is in `allowed_types` exactly when the message decoded
from that frame is of an allowed kind (the parser's tag table and the
decoder's registry agree on every registered tag). -/
theorem tag_mem_iff {v : Ver} {t : Nat} {b : List Nat} {m : Msg}
    (hdm : decodeMessage v t b = .ok m) (l : List MsgKind) :
    t ∈ l.map parserTag ↔ m.kind ∈ l := by
  obtain ⟨fmt, hl⟩ := decodeMessage_cls hdm
  have ht := lookupFmt_tag hl
  constructor
  · intro hmem
    obtain ⟨k', hk', hpk⟩ := List.mem_map.mp hmem
    have hkk := parserTag_inj k' m.kind (hpk.trans ht.symm)
    exact hkk ▸ hk'
  · intro hmem
    rw [← ht]
    exact List.mem_map_of_mem parserTag hmem

/-! ### The filtering simulation -/

theorem runAll_filter_sim (v : Ver) (tp : List Nat) (l : List MsgKind) (hne : l ≠ []) :
    ∀ (n : Nat) (s : PState), s.stream.length ≤ n →
      (runAll v none tp s).2 = .endOfStream →
      runAll v (some l) tp s =
        ((runAll v none tp s).1.filter (fun m => decide (m.kind ∈ l)), .endOfStream) := by
  intro n
  induction n with
  | zero =>
    intro s hlen hEOS
    cases hnf : nextFrame tp s with
    | ok s2 =>
      have := nextFrame_ok_lt hnf
      omega
    | error e =>
      have hnone : runAll v none tp s = ([], e) := by
        rw [runAll_eq v none tp s, getNextMessage_none v tp s, hnf]
      rw [hnone] at hEOS
      simp only at hEOS
      subst hEOS
      rw [runAll_eq v (some l) tp s, getNextMessage_some hne v tp s, hnf, hnone]
      rfl
  | succ n ih =>
    intro s hlen hEOS
    cases hnf : nextFrame tp s with
    | error e =>
      have hnone : runAll v none tp s = ([], e) := by
        rw [runAll_eq v none tp s, getNextMessage_none v tp s, hnf]
      rw [hnone] at hEOS
      simp only at hEOS
      subst hEOS
      rw [runAll_eq v (some l) tp s, getNextMessage_some hne v tp s, hnf, hnone]
      rfl
    | ok s2 =>
      have hlt := nextFrame_ok_lt hnf
      cases hdm : decodeMessage v s2.messageType s2.messageBinary with
      | error e =>
        have hnone : runAll v none tp s = ([], e) := by
          rw [runAll_eq v none tp s, getNextMessage_none v tp s, hnf]
          dsimp only
          rw [hdm]
        rw [hnone] at hEOS
        simp only at hEOS
        exact absurd hEOS (decodeMessage_err_ne_eos hdm)
      | ok m =>
        have hgn : getNextMessage v none tp s = .ok (m, s2) := by
          rw [getNextMessage_none v tp s, hnf]
          dsimp only
          rw [hdm]
        have hnone : runAll v none tp s =
            (m :: (runAll v none tp s2).1, (runAll v none tp s2).2) := by
          rw [runAll_eq v none tp s, hgn]
        have hEOS2 : (runAll v none tp s2).2 = .endOfStream := by
          rw [hnone] at hEOS
          exact hEOS
        have hIH := ih s2 (by omega) hEOS2
        by_cases hk : m.kind ∈ l
        · have hts : s2.messageType ∈ l.map parserTag := (tag_mem_iff hdm l).mpr hk
          have hfl : filterLoop tp (l.map parserTag) s2 = .ok s2 := by
            rw [filterLoop_eq tp (l.map parserTag) s2, if_pos hts]
          have hgs : getNextMessage v (some l) tp s = .ok (m, s2) := by
            rw [getNextMessage_some hne v tp s, hnf]
            dsimp only
            rw [hfl]
            dsimp only
            rw [hdm]
          rw [runAll_eq v (some l) tp s, hgs]
          dsimp only
          rw [hIH, hnone]
          simp [List.filter_cons, hk]
        · have hts : s2.messageType ∉ l.map parserTag := fun hmem =>
            hk ((tag_mem_iff hdm l).mp hmem)
          have hgeq : getNextMessage v (some l) tp s = getNextMessage v (some l) tp s2 := by
            rw [getNextMessage_some hne v tp s, hnf]
            dsimp only
            rw [filterLoop_eq tp (l.map parserTag) s2, if_neg hts,
              getNextMessage_some hne v tp s2]
            cases hnf2 : nextFrame tp s2 <;> rfl
          have hra : runAll v (some l) tp s = runAll v (some l) tp s2 := by
            rw [runAll_eq v (some l) tp s, hgeq, ← runAll_eq v (some l) tp s2]
          rw [hra, hIH, hnone]
          simp [List.filter_cons, hk]

/-! ### Header-scan offset accounting over zero-padded fixtures -/

/-- Scanning a stream of `n` junk zero bytes followed by the 12-byte
header prefix consumes exactly `n + 12` bytes (no partial match occurs
inside the junk because the prefix starts with 0x01). -/
theorem seekScan_zeros (r : List Nat) :
    ∀ n : Nat, seekScanL tpEx (List.replicate n 0 ++ (tpEx ++ r)) 0 = .ok (n + 12, r) := by
  intro n
  induction n with
  | zero => rfl
  | succ k ih =>
    have hrep : List.replicate (k + 1) 0 ++ (tpEx ++ r) =
        0 :: (List.replicate k 0 ++ (tpEx ++ r)) := rfl
    rw [hrep]
    simp only [seekScanL]
    rw [if_neg (show ¬ (0 : Nat) = tpEx.getD 0 0 by decide), ih]

/-- `read_chunk` with a positive count no larger than the remaining
stream returns exactly that many bytes. -/
theorem readChunk_exact {n : Int} {s : PState} (hw : 0 < n) (hle : n.toNat ≤ s.stream.length) :
    readChunk n s =
      .ok (s.stream.take n.toNat,
        { s with stream := s.stream.drop n.toNat, bytesRead := s.bytesRead + n.toNat }) := by
  have hneg : ¬ (n < 0) := by omega
  have htn : 0 < n.toNat := by omega
  have hlen : (s.stream.take n.toNat).length = n.toNat := by
    rw [List.length_take]
    omega
  have hemp : (s.stream.take n.toNat).isEmpty = false := by
    cases hc : s.stream.take n.toNat with
    | nil =>
      rw [hc] at hlen
      simp at hlen
      omega
    | cons a t => rfl
  simp only [readChunk, if_neg hneg, hemp, Bool.false_eq_true, if_false, hlen]

/-- Full `_seek_header` over `n` zero bytes, the header prefix, a
28-byte trailer and the rest of the file: succeeds and accounts
`n + 12 + 28` bytes read. -/
theorem seekHeader_zeros (n : Nat) (tr rest : List Nat) (htr : tr.length = 28) :
    seekHeader tpEx (mkState (List.replicate n 0 ++ (tpEx ++ (tr ++ rest)))) =
      .ok { stream := rest, bytesRead := n + 40,
            messagesLeft := int16LE ((tr.drop 2).take 2),
            curMsgPayloadLen := int16LE (tr.take 2),
            curStreamOffset := int64LE ((tr.drop 4).take 8),
            firstSequenceNumber := int64LE ((tr.drop 12).take 8),
            curSendTime := (int64LE ((tr.drop 20).take 8) : ℚ) / 10 ^ 9,
            messageType := 0, messageBinary := [] } := by
  have htk : (tr ++ rest).take 28 = tr := by
    rw [← htr]
    exact List.take_left tr rest
  have hdp : (tr ++ rest).drop 28 = rest := by
    rw [← htr]
    exact List.drop_left tr rest
  have hstream : (mkState (List.replicate n 0 ++ (tpEx ++ (tr ++ rest)))).stream =
      List.replicate n 0 ++ (tpEx ++ (tr ++ rest)) := rfl
  simp only [seekHeader, hstream, seekScan_zeros]
  dsimp only [mkState]
  have h28 : ((28 : Int)).toNat = 28 := rfl
  have hle : ((28 : Int)).toNat ≤ ((tr ++ rest) : List Nat).length := by
    rw [h28, List.length_append, htr]
    omega
  rw [readChunk_exact (show (0 : Int) < 28 by norm_num) hle]
  dsimp only
  simp only [h28]
  rw [htk, hdp, if_pos htr]
  have hbytes : 0 + (n + 12) + 28 = n + 40 := by omega
  rw [hbytes]

/-! ### Session-scan error shape -/

/-- The session-id scan can only fail with IndexError (the subscript of
the empty read at end of stream); in particular the
`ProtocolException("Session ID could not be found ...")` raise is
unreachable. -/
theorem sessScan_err (pfx : List Nat) :
    ∀ (s : List Nat) (i : Nat) (e : Err), sessScan pfx s i = .error e → e = .indexError := by
  intro s
  induction s with
  | nil =>
    intro i e h
    simp only [sessScan, Except.error.injEq] at h
    exact h.symm
  | cons b rest ih =>
    intro i e h
    simp only [sessScan] at h
    split at h
    · split at h
      · cases h
      · exact ih (i + 1) e h
    · exact ih 0 e h

/-- Reading an attribute off a decode result (`none` when the decode
failed or the attribute was never assigned). -/
def msgAttr (r : Except Err Msg) (n : String) : Option Value :=
  match r with
  | .ok m => attrGet m.attrs n
  | .error _ => none

/-- Whether a result is the `ValueError` that `Parser.__init__`'s dead
branch would raise. -/
def isValErr {alpha : Type} (r : Except Err alpha) : Bool :=
  match r with
  | .error .valueError => true
  | _ => false

/-! ### Claims -/

/-- C1.  The spec claims that on every price-bearing message kind,
SecurityDirective included, the derived `price` attribute is present and
equals the raw integer price divided by 10^4.  The code's name-based
scan (slots containing both "price" and "int") derives it for the other
price-bearing kinds (TradeReport shown: 123400 / 10^4 = 617/50), but
SecurityDirective's raw price field is named `adjusted_poc_close`, so
although the class declares a `price` slot, it is never assigned:
accessing it raises AttributeError.  The code contradicts its own
declared slot; decided as a code bug at this concrete input. -/
theorem C1_securityDirective_price_never_set :
    (construct .SecurityDirective
      [.int 0, .int 0, .bytes [90, 73, 69, 88, 84, 32, 32, 32], .int 100, .int 123400,
        .int 0]).isOk = true ∧
    msgAttr (construct .SecurityDirective
      [.int 0, .int 0, .bytes [90, 73, 69, 88, 84, 32, 32, 32], .int 100, .int 123400,
        .int 0]) "price" = none ∧
    "price" ∈ slotsOf .SecurityDirective ∧
    msgAttr (construct .TradeReport
      [.int 0, .int 0, .bytes [90, 73, 69, 88, 84, 32, 32, 32], .int 100, .int 123400,
        .int 7]) "price" = some (.rat (((123400 : Int) : ℚ) / 10 ^ 4)) := by
  refine ⟨by decide, by decide, by decide, ?_⟩
  rfl

/-- C2, counterexample.  `read_chunk(5)` on a stream holding only three
bytes returns those three bytes with no `StopIteration`: the claim that
it returns exactly `n` bytes or signals end-of-stream is false. -/
theorem C2_short_read_counterexample :
    (readChunk 5 (mkState [1, 2, 3])).isOk = true ∧
    chunkLen (readChunk 5 (mkState [1, 2, 3])) = 3 ∧ (3 : Nat) ≠ 5 := by
  decide

/-- C2, amended.  `read_chunk(n)` (n ≥ 1) raises `StopIteration` exactly
when no bytes remain; otherwise it returns `min n remaining` bytes, so a
silent short read occurs whenever `0 < remaining < n`. -/
theorem C2_read_chunk_short_read_behavior (n : Int) (s : PState) (hn : 1 ≤ n) :
    (readChunk n s = .error .endOfStream ↔ s.stream = []) ∧
    chunkLen (readChunk n s) = if s.stream = [] then 0 else min n.toNat s.stream.length := by
  have hneg : ¬ (n < 0) := by omega
  by_cases hemp : s.stream = []
  · constructor
    · constructor
      · intro _
        exact hemp
      · intro _
        simp [readChunk, if_neg hneg, hemp]
    · simp [chunkLen, readChunk, if_neg hneg, hemp]
  · have hne2 : (s.stream.take n.toNat).isEmpty = false := by
      cases hs : s.stream with
      | nil => exact absurd hs hemp
      | cons a t =>
        cases hnt : n.toNat with
        | zero => omega
        | succ k => simp [hs, hnt]
    constructor
    · constructor
      · intro hcontra
        simp [readChunk, if_neg hneg, hne2] at hcontra
      · intro hc
        exact absurd hc hemp
    · simp [chunkLen, readChunk, if_neg hneg, hne2, hemp, List.length_take]

theorem C2_read_chunk_short_read_behavior_witness :
    (readChunk 4 (mkState [7, 7]) = .error .endOfStream ↔ (mkState [7, 7]).stream = []) ∧
    chunkLen (readChunk 4 (mkState [7, 7])) =
      if (mkState [7, 7]).stream = [] then 0 else min ((4 : Int)).toNat
        (mkState [7, 7]).stream.length :=
  C2_read_chunk_short_read_behavior 4 (mkState [7, 7]) (by norm_num)

/-- C3.  The header-prefix scanning loop of `_seek_header` is total on
every finite stream (the Lean function is structurally recursive because
each loop iteration consumes exactly one byte), and whenever it does not
complete a full prefix match it terminates with `StopIteration` — no
other error and no divergence is possible. -/
theorem C3_seek_scan_signals_end_of_stream (tp s : List Nat) (i : Nat) :
    seekScanL tp s i = .error .endOfStream ∨ ∃ k r, seekScanL tp s i = .ok (k, r) := by
  induction s generalizing i with
  | nil => exact Or.inl rfl
  | cons b rest ih =>
    simp only [seekScanL]
    by_cases hb : b = tp.getD i 0
    · rw [if_pos hb]
      by_cases hi : i + 1 = tp.length
      · rw [if_pos hi]
        exact Or.inr ⟨1, rest, rfl⟩
      · rw [if_neg hi]
        rcases ih (i + 1) with h | ⟨k, r, h⟩
        · rw [h]
          exact Or.inl rfl
        · rw [h]
          exact Or.inr ⟨k + 1, r, rfl⟩
    · rw [if_neg hb]
      rcases ih 0 with h | ⟨k, r, h⟩
      · rw [h]
        exact Or.inl rfl
      · rw [h]
        exact Or.inr ⟨k + 1, r, rfl⟩

/-- C4.  For any non-empty allowed list, whenever unfiltered full-file
iteration terminates with `StopIteration`, filtered iteration yields
exactly the allowed-kind sub-sequence of the unfiltered run (frames are
always fully consumed; filtering only suppresses returns), so the
filtered count equals the unfiltered count after discarding other
kinds. -/
theorem C4_filtering_matches_unfiltered (v : Ver) (tp : List Nat) (l : List MsgKind)
    (s : PState) (hne : l ≠ []) (hEOS : (runAll v none tp s).2 = .endOfStream) :
    runAll v (some l) tp s =
      ((runAll v none tp s).1.filter (fun m => decide (m.kind ∈ l)), .endOfStream) :=
  runAll_filter_sim v tp l hne s.stream.length s (le_refl _) hEOS

theorem C4_filtering_matches_unfiltered_witness :
    runAll .v1_6 (some [MsgKind.TradeReport]) tpEx (mkState streamEx) =
      ((runAll .v1_6 none tpEx (mkState streamEx)).1.filter
        (fun m => decide (m.kind ∈ [MsgKind.TradeReport])), .endOfStream) :=
  C4_filtering_matches_unfiltered .v1_6 tpEx [MsgKind.TradeReport] (mkState streamEx)
    (by decide) (by decide)

/-- C5.  Decoding a tag that is not registered for the active protocol
version raises `ProtocolException`, and the error carries the offending
tag value. -/
theorem C5_unknown_tag_protocol_error (v : Ver) (t : Nat) (b : List Nat)
    (h : lookupFmt v t = none) :
    decodeMessage v t b = .error (.protocolError t) := by
  simp [decodeMessage, h]

theorem C5_unknown_tag_protocol_error_witness :
    decodeMessage .v1_6 0x45 [] = .error (.protocolError 0x45) :=
  C5_unknown_tag_protocol_error .v1_6 0x45 [] (by decide)

/-- C6, counterexample.  Decoding a registered tag (0x53, SystemEvent,
9-byte layout) with a 5-byte payload fails with struct.error, not with
`ProtocolException` as the claim states. -/
theorem C6_length_mismatch_counterexample :
    decodeMessage .v1_6 0x53 [0, 0, 0, 0, 0] = .error .structError ∧
    isProtoErr (decodeMessage .v1_6 0x53 [0, 0, 0, 0, 0]) = false := by
  decide

/-- C6, amended.  For a registered tag, a payload whose length differs
from the layout width fails with the (uncaught) struct.error from
`struct.unpack`, not with `ProtocolException`. -/
theorem C6_length_mismatch_struct_error (v : Ver) (t : Nat) (fmt : List FieldType)
    (k : MsgKind) (b : List Nat) (h1 : lookupFmt v t = some (fmt, k))
    (h2 : b.length ≠ calcsize fmt) :
    decodeMessage v t b = .error .structError := by
  simp [decodeMessage, h1, structUnpack, h2]

theorem C6_length_mismatch_struct_error_witness :
    decodeMessage .v1_6 0x53 [0, 0, 0, 0, 0] = .error .structError :=
  C6_length_mismatch_struct_error .v1_6 0x53 fmtBq .SystemEvent [0, 0, 0, 0, 0]
    (by decide) (by decide)

/-- C7.  On a file that never contains the 8-byte session prefix, the
`_get_session_id` scan hits end of stream and raises IndexError from
`cur_chunk[0]` on the empty read — never the `ProtocolException` the
claim (and the function's own unreachable final raise) promises. -/
theorem C7_session_scan_raises_index_error :
    sessScan (tpEx.take 8) [0, 0, 0] 0 = .error .indexError ∧
    ∀ (pfx s : List Nat) (i : Nat), isProtoErr (sessScan pfx s i) = false := by
  constructor
  · decide
  · intro pfx s i
    cases hr : sessScan pfx s i with
    | ok v => rfl
    | error e =>
      have he := sessScan_err pfx s i e hr
      subst he
      rfl

/-- C8.  `Parser.__init__` with `tops=True, deep=True` does not raise:
the `elif deep:` branch shadows the `elif deep and tops:` ValueError
branch, so the conflicting flags are silently accepted as a DEEP parser
(protocol id 04 80, version forced to 1.0).  The ValueError branch is
unreachable for every argument combination. -/
theorem C8_deep_and_tops_not_rejected :
    initProtocol true true (8 / 5) = .ok ⟨[0x04, 0x80], 1⟩ ∧
    ∀ (t d : Bool) (ver : ℚ), isValErr (initProtocol t d ver) = false := by
  constructor
  · rfl
  · intro t d ver
    cases t <;> cases d <;> simp only [initProtocol] <;>
      first
        | rfl
        | (cases hp : protocolIds ver <;> rfl)

/-- C10.  Calling `get_next_message` with `allowed = []` passes the
isinstance check, reads a complete frame (seek loop plus
`_read_next_message`, which consumes the frame and shortens the
stream), and then fails with UnboundLocalError because `allowed_types`
is only assigned under `if allowed:` — the empty list is falsy. -/
theorem C10_empty_allowed_unbound_local (v : Ver) (tp : List Nat) (s : PState)
    (h : (nextFrame tp s).isOk = true) :
    getNextMessage v (some []) tp s = .error .unboundLocalError ∧
    streamLenAfter (nextFrame tp s) < s.stream.length := by
  cases hnf : nextFrame tp s with
  | error e =>
    rw [hnf] at h
    simp [Except.isOk, Except.toBool] at h
  | ok s2 =>
    constructor
    · rw [getNextMessage_some_nil, hnf]
    · dsimp only [streamLenAfter]
      exact nextFrame_ok_lt hnf

theorem C10_empty_allowed_unbound_local_witness :
    getNextMessage .v1_6 (some []) tpEx (mkState streamEx) = .error .unboundLocalError ∧
    streamLenAfter (nextFrame tpEx (mkState streamEx)) < (mkState streamEx).stream.length :=
  C10_empty_allowed_unbound_local .v1_6 tpEx (mkState streamEx) (by decide)

/-- C9, counterexample.  On a stream whose first header prefix starts at
byte offset 1930, `bytes_read` immediately after the first successful
`_seek_header` is 1970 (offset plus the 12-byte prefix plus the 28-byte
trailer), not 1930 as the claim states. -/
theorem C9_offset_1930_counterexample :
    bytesAfter (seekHeader tpEx
      (mkState (List.replicate 1930 0 ++ (tpEx ++ (List.replicate 28 0 ++ []))))) = 1970 ∧
    (1970 : Nat) ≠ 1930 := by
  constructor
  · rw [seekHeader_zeros 1930 (List.replicate 28 0) [] (by simp)]
    rfl
  · decide

/-- C9, amended.  After the first successful `_seek_header` on a stream
whose header prefix starts at offset `n`, `bytes_read` equals `n + 40`:
the scan counts the junk bytes, the 12-byte prefix and the 28-byte
trailer it consumed (the repository's own test fixture asserts the
post-trailer value, 1930, for a header starting at 1890). -/
theorem C9_bytes_read_after_seek (n : Nat) (tr rest : List Nat) (htr : tr.length = 28) :
    (seekHeader tpEx (mkState (List.replicate n 0 ++ (tpEx ++ (tr ++ rest))))).isOk = true ∧
    bytesAfter (seekHeader tpEx (mkState (List.replicate n 0 ++ (tpEx ++ (tr ++ rest))))) =
      n + 40 := by
  rw [seekHeader_zeros n tr rest htr]
  exact ⟨rfl, rfl⟩

theorem C9_bytes_read_after_seek_witness :
    (seekHeader tpEx
      (mkState (List.replicate 5 0 ++ (tpEx ++ (List.replicate 28 0 ++ []))))).isOk = true ∧
    bytesAfter (seekHeader tpEx
      (mkState (List.replicate 5 0 ++ (tpEx ++ (List.replicate 28 0 ++ []))))) = 5 + 40 :=
  C9_bytes_read_after_seek 5 (List.replicate 28 0) [] (by simp)

end IEXT
